import Mathlib

/-!
Verification of the `lsp` package of the tron editor: the framed JSON-RPC
transport codec (`WriteMessage` / `ReadMessage`), the request-correlation
client (`SendRequest` / `WaitForResponse` / `readLoop`) and the protocol
operations facade (`Initialize` / `OpenDocument` / `GetCompletions` /
`GoToDefinition` / `Shutdown`).

The Go source is shallowly embedded: byte streams are `List Nat` (one entry
per byte, ASCII for all protocol text), machine integers are `Int` with the
32-bit wrap made explicit where the source uses a 32-bit atomic counter,
fallible operations return `Except`/`Option`, and the concurrent client is
a state machine stepped by explicit events.
-/

namespace Tron

/-- Byte streams and in-memory byte strings: one `Nat` per byte. -/
abbrev Bytes := List Nat

/-! ## Decimal digits

`WriteMessage` prints the body length with `fmt.Sprintf("%d", ...)` and
`ReadMessage` parses it back with `strconv.Atoi`.  `toDec` is the decimal
printer for naturals, `atoi` models `strconv.Atoi` (optional sign, then a
nonempty run of digits and nothing else). -/

def digitByte (d : Nat) : Nat := 48 + d

def isDigitByte (b : Nat) : Bool := 48 ≤ b && b ≤ 57

/-- Decimal representation of a natural, most significant digit first. -/
def toDec (n : Nat) : Bytes :=
  if _h : n < 10 then [digitByte n]
  else toDec (n / 10) ++ [digitByte (n % 10)]
termination_by n
decreasing_by exact Nat.div_lt_self (by omega) (by omega)

/-- Accumulating digit-run parser: consumes the whole list, failing on the
first non-digit byte. -/
def fromDecAux (acc : Nat) : Bytes → Option Nat
  | [] => some acc
  | b :: bs => if isDigitByte b then fromDecAux (10 * acc + (b - 48)) bs else none

/-- Parse a nonempty all-digit byte string as a natural. -/
def decToNat (s : Bytes) : Option Nat :=
  match s with
  | [] => none
  | _ :: _ => fromDecAux 0 s

/-- Model of Go `strconv.Atoi`: optional leading sign, then digits only. -/
def atoi (s : Bytes) : Option Int :=
  match s with
  | [] => none
  | b :: bs =>
    if b = 43 then (decToNat bs).map (fun n => (n : Int))
    else if b = 45 then (decToNat bs).map (fun n => -(n : Int))
    else (decToNat s).map (fun n => (n : Int))

theorem toDec_ne_nil (n : Nat) : toDec n ≠ [] := by
  unfold toDec
  split <;> simp

theorem toDec_digits (n : Nat) : ∀ b ∈ toDec n, 48 ≤ b ∧ b ≤ 57 := by
  induction n using toDec.induct with
  | case1 n h =>
    unfold toDec
    simp only [h, dif_pos]
    intro b hb
    simp only [List.mem_singleton] at hb
    subst hb
    unfold digitByte
    omega
  | case2 n h ih =>
    unfold toDec
    simp only [h, dif_neg]
    intro b hb
    rcases List.mem_append.mp hb with h1 | h2
    · exact ih b h1
    · simp only [List.mem_singleton] at h2
      subst h2
      unfold digitByte
      omega

theorem fromDecAux_cons (acc b : Nat) (bs : Bytes) :
    fromDecAux acc (b :: bs)
      = if isDigitByte b then fromDecAux (10 * acc + (b - 48)) bs else none := rfl

theorem fromDecAux_toDec_append (n : Nat) :
    ∀ (acc : Nat) (rest : Bytes),
      fromDecAux acc (toDec n ++ rest)
        = fromDecAux (acc * 10 ^ (toDec n).length + n) rest := by
  induction n using toDec.induct with
  | case1 n h =>
    intro acc rest
    have e : toDec n = [digitByte n] := by
      unfold toDec
      rw [dif_pos h]
    have hd : isDigitByte (digitByte n) = true := by
      unfold isDigitByte digitByte
      simp
      omega
    rw [e]
    simp only [List.singleton_append, fromDecAux_cons, hd, if_pos,
      List.length_singleton]
    have : 10 * acc + (digitByte n - 48) = acc * 10 ^ 1 + n := by
      unfold digitByte
      omega
    rw [this]
  | case2 n h ih =>
    intro acc rest
    have e : toDec n = toDec (n / 10) ++ [digitByte (n % 10)] := by
      conv_lhs => unfold toDec
      rw [dif_neg h]
    have hd : isDigitByte (digitByte (n % 10)) = true := by
      unfold isDigitByte digitByte
      simp
      omega
    rw [e, List.append_assoc, ih]
    simp only [List.singleton_append, fromDecAux_cons, hd, if_pos,
      List.length_append, List.length_singleton]
    have : 10 * (acc * 10 ^ (toDec (n / 10)).length + n / 10) + (digitByte (n % 10) - 48)
        = acc * 10 ^ ((toDec (n / 10)).length + 1) + n := by
      unfold digitByte
      rw [pow_succ]
      have hb : acc * (10 ^ (toDec (n / 10)).length * 10)
          = 10 * (acc * 10 ^ (toDec (n / 10)).length) := by ring
      rw [hb]
      have h10 : 10 * (n / 10) + n % 10 = n := Nat.div_add_mod n 10
      omega
    rw [this]

theorem decToNat_toDec (n : Nat) : decToNat (toDec n) = some n := by
  have hne := toDec_ne_nil n
  unfold decToNat
  match hm : toDec n with
  | [] => exact absurd hm hne
  | b :: bs =>
    have := fromDecAux_toDec_append n 0 []
    rw [hm] at this
    simpa [fromDecAux] using this

theorem atoi_toDec (n : Nat) : atoi (toDec n) = some (n : Int) := by
  have hne := toDec_ne_nil n
  have hdig := toDec_digits n
  have hdec := decToNat_toDec n
  unfold atoi
  match hm : toDec n with
  | [] => exact absurd hm hne
  | b :: bs =>
    have hb : 48 ≤ b ∧ b ≤ 57 := by
      apply hdig
      rw [hm]
      exact List.mem_cons_self b bs
    have h43 : ¬ b = 43 := by omega
    have h45 : ¬ b = 45 := by omega
    rw [hm] at hdec
    simp [h43, h45, hdec]

/-! ## The transport codec: `ReadMessage`

`ReadMessage(reader)` reads header lines (`bufio.Reader.ReadString('\n')`)
until a blank line, extracting the `Content-Length:` value, then reads
exactly that many body bytes with `io.ReadFull`. -/

/-- ASCII whitespace recognised by Go `strings.TrimSpace` (the protocol is
ASCII, so the extra Unicode space runes never occur). -/
def isSpaceByte (b : Nat) : Bool :=
  b = 32 || b = 9 || b = 10 || b = 13 || b = 11 || b = 12

/-- Drop trailing whitespace bytes. -/
def trimRight (s : Bytes) : Bytes :=
  (s.reverse.dropWhile isSpaceByte).reverse

/-- Model of Go `strings.TrimSpace` on a byte string. -/
def trimSpace (s : Bytes) : Bytes :=
  (trimRight s).dropWhile isSpaceByte

/-- Model of `bufio.Reader.ReadString('\n')`: the returned line includes the
terminating newline; `none` models the error return when the stream ends
before a newline is found (the caller treats any error as fatal). -/
def readLine : Bytes → Option (Bytes × Bytes)
  | [] => none
  | b :: bs =>
    if b = 10 then some ([10], bs)
    else
      match readLine bs with
      | none => none
      | some (l, r) => some (b :: l, r)

theorem readLine_shrink :
    ∀ (s l r : Bytes), readLine s = some (l, r) → r.length < s.length := by
  intro s
  induction s with
  | nil => intro l r h; simp [readLine] at h
  | cons b bs ih =>
    intro l r h
    unfold readLine at h
    by_cases hb : b = 10
    · simp only [hb, if_pos] at h
      cases h
      simp
    · simp only [hb, if_neg, not_false_iff] at h
      cases hm : readLine bs with
      | none => rw [hm] at h; cases h
      | some p =>
        obtain ⟨l2, r2⟩ := p
        rw [hm] at h
        cases h
        have := ih _ _ hm
        simp only [List.length_cons]
        omega

/-- The bytes of the header name `Content-Length:`. -/
def clBytes : Bytes :=
  [67, 111, 110, 116, 101, 110, 116, 45, 76, 101, 110, 103, 116, 104, 58]

/-- Error cases of `ReadMessage`; all are reported to the caller as a
framing failure (the spec's `FramingError` taxonomy). -/
inductive RMErr
  | headerRead
  | invalidLength
  | missingLength
  | bodyRead
deriving DecidableEq

/-- Header loop of `ReadMessage`: read lines until a blank line, tracking
the last parsed `Content-Length:` value (initially `-1`). -/
def readHeaders (s : Bytes) (contentLength : Int) : Except RMErr (Int × Bytes) :=
  match h : readLine s with
  | none => .error .headerRead
  | some (line, rest) =>
    let t := trimSpace line
    if t = [] then .ok (contentLength, rest)
    else if clBytes.isPrefixOf t then
      match atoi (trimSpace (t.drop clBytes.length)) with
      | none => .error .invalidLength
      | some n => readHeaders rest n
    else
      readHeaders rest contentLength
termination_by s.length
decreasing_by
  all_goals exact readLine_shrink s line rest h

/-- Model of `ReadMessage`: returns the body bytes and the unconsumed rest
of the stream. -/
def ReadMessage (s : Bytes) : Except RMErr (Bytes × Bytes) :=
  match readHeaders s (-1) with
  | .error e => .error e
  | .ok (n, rest) =>
    if n < 0 then .error .missingLength
    else if n.toNat ≤ rest.length then .ok (rest.take n.toNat, rest.drop n.toNat)
    else .error .bodyRead

/-! ## List and trimming lemmas used by the codec proofs -/

theorem dropWhile_append_all (p : Nat → Bool) (xs ys : Bytes)
    (h : ∀ b ∈ xs, p b = true) :
    (xs ++ ys).dropWhile p = ys.dropWhile p := by
  induction xs with
  | nil => rfl
  | cons x xs ih =>
    have hx : p x = true := h x (List.mem_cons_self x xs)
    simp only [List.cons_append, List.dropWhile_cons, hx, if_pos]
    exact ih (fun b hb => h b (List.mem_cons_of_mem x hb))

theorem dropWhile_append_headfalse (p : Nat → Bool) (a b : Bytes) (c : Nat)
    (hc : p c = false) :
    (a ++ c :: b).dropWhile p = a.dropWhile p ++ c :: b := by
  induction a with
  | nil => simp [List.dropWhile_cons, hc]
  | cons x xs ih =>
    simp only [List.cons_append, List.dropWhile_cons]
    by_cases hx : p x = true
    · simp only [hx, if_pos]
      exact ih
    · simp only [hx, if_neg, not_false_iff, List.cons_append]
      simp at hx
      simp [hx]

theorem dropWhile_idem (p : Nat → Bool) (s : Bytes) :
    (s.dropWhile p).dropWhile p = s.dropWhile p := by
  induction s with
  | nil => rfl
  | cons x xs ih =>
    simp only [List.dropWhile_cons]
    by_cases hx : p x = true
    · simp only [hx, if_pos]
      exact ih
    · simp [List.dropWhile_cons, hx]

theorem trimRight_append_spaces (x E : Bytes) (h : ∀ b ∈ E, isSpaceByte b = true) :
    trimRight (x ++ E) = trimRight x := by
  unfold trimRight
  rw [List.reverse_append]
  rw [dropWhile_append_all isSpaceByte E.reverse x.reverse
    (fun b hb => h b (List.mem_reverse.mp hb))]

theorem trimRight_snoc_nonspace (a : Bytes) (c : Nat) (hc : isSpaceByte c = false) :
    trimRight (a ++ [c]) = a ++ [c] := by
  unfold trimRight
  rw [List.reverse_append]
  simp only [List.reverse_singleton, List.singleton_append, List.dropWhile_cons, hc]
  simp

theorem trimRight_append_nonspace_mid (a v : Bytes) (c : Nat)
    (hc : isSpaceByte c = false) :
    trimRight ((a ++ [c]) ++ v) = (a ++ [c]) ++ trimRight v := by
  unfold trimRight
  rw [List.reverse_append, List.reverse_append]
  simp only [List.reverse_singleton, List.singleton_append]
  rw [dropWhile_append_headfalse isSpaceByte v.reverse a.reverse c hc]
  simp [List.reverse_append]

theorem trimRight_idem (s : Bytes) : trimRight (trimRight s) = trimRight s := by
  unfold trimRight
  rw [List.reverse_reverse, dropWhile_idem]

theorem readLine_no_nl (L : Bytes) (rest : Bytes) (h : 10 ∉ L) :
    readLine (L ++ 10 :: rest) = some (L ++ [10], rest) := by
  induction L with
  | nil => simp [readLine]
  | cons b bs ih =>
    have hb : b ≠ 10 := fun hb => h (hb ▸ List.mem_cons_self b bs)
    have hbs : 10 ∉ bs := fun hm => h (List.mem_cons_of_mem b hm)
    have he : readLine ((b :: bs) ++ 10 :: rest)
        = if b = 10 then some ([10], bs ++ 10 :: rest)
          else
            match readLine (bs ++ 10 :: rest) with
            | none => none
            | some (l, r) => some (b :: l, r) := rfl
    rw [he, if_neg hb, ih hbs]
    rfl

theorem isPrefixOf_append_self (p x : Bytes) : p.isPrefixOf (p ++ x) = true := by
  induction p with
  | nil => simp [List.isPrefixOf]
  | cons b bs ih => simpa [List.isPrefixOf] using ih

/-! ## Header-loop step lemmas -/

theorem readHeaders_cons (s : Bytes) (cl : Int) (line rest : Bytes)
    (hs : readLine s = some (line, rest)) :
    readHeaders s cl =
      (if trimSpace line = [] then .ok (cl, rest)
       else if clBytes.isPrefixOf (trimSpace line) then
         match atoi (trimSpace ((trimSpace line).drop clBytes.length)) with
         | none => .error .invalidLength
         | some n => readHeaders rest n
       else readHeaders rest cl) := by
  conv_lhs => unfold readHeaders
  split
  · rename_i heq
    rw [hs] at heq
    cases heq
  · rename_i l r heq
    rw [hs] at heq
    cases heq
    rfl

theorem readHeaders_blank (s : Bytes) (cl : Int) :
    readHeaders (13 :: 10 :: s) cl = .ok (cl, s) := by
  have hline : readLine (13 :: 10 :: s) = some ([13, 10], s) := rfl
  rw [readHeaders_cons _ cl _ _ hline]
  have ht : trimSpace [13, 10] = [] := rfl
  rw [ht]
  simp

theorem trimSpace_line_crlf (L : Bytes) :
    trimSpace (L ++ [13, 10]) = trimSpace L := by
  unfold trimSpace
  rw [trimRight_append_spaces L [13, 10] (by intro b hb; simp at hb; rcases hb with h | h <;> subst h <;> rfl)]

theorem readHeaders_other (L s : Bytes) (cl : Int)
    (h10 : 10 ∉ L) (hne : trimSpace L ≠ [])
    (hpre : clBytes.isPrefixOf (trimSpace L) = false) :
    readHeaders (L ++ [13, 10] ++ s) cl = readHeaders s cl := by
  have h10' : 10 ∉ L ++ [13] := by
    intro hm
    rcases List.mem_append.mp hm with h1 | h2
    · exact h10 h1
    · simp at h2
  have hline : readLine (L ++ [13, 10] ++ s) = some (L ++ [13, 10], s) := by
    have := readLine_no_nl (L ++ [13]) s h10'
    simpa [List.append_assoc] using this
  rw [readHeaders_cons _ cl _ _ hline, trimSpace_line_crlf]
  simp [hne, hpre]

/-- The last byte of `toDec n` is a digit, hence not whitespace. -/
theorem toDec_structure (n : Nat) :
    ∃ a c, toDec n = a ++ [c] ∧ isSpaceByte c = false ∧ isDigitByte c = true := by
  have hne := toDec_ne_nil n
  refine ⟨(toDec n).dropLast, (toDec n).getLast hne, ?_, ?_, ?_⟩
  · exact (List.dropLast_append_getLast hne).symm
  · have hd := toDec_digits n _ (List.getLast_mem hne)
    unfold isSpaceByte
    simp
    omega
  · have hd := toDec_digits n _ (List.getLast_mem hne)
    unfold isDigitByte
    simp
    omega

theorem trimSpace_cl_line (n : Nat) :
    trimSpace ((clBytes ++ 32 :: toDec n) ++ [13, 10]) = clBytes ++ 32 :: toDec n := by
  obtain ⟨a, c, he, hcs, _⟩ := toDec_structure n
  unfold trimSpace
  rw [trimRight_append_spaces _ [13, 10] (by intro b hb; simp at hb; rcases hb with h | h <;> subst h <;> rfl)]
  rw [he]
  rw [show clBytes ++ 32 :: (a ++ [c]) = (clBytes ++ 32 :: a) ++ [c] from by simp]
  rw [trimRight_snoc_nonspace _ c hcs]
  rw [show (clBytes ++ 32 :: a) ++ [c] = 67 :: (clBytes.tail ++ 32 :: a ++ [c]) from by
    simp [clBytes]]
  rw [List.dropWhile_cons]
  simp [isSpaceByte, clBytes]

theorem trimSpace_space_toDec (n : Nat) :
    trimSpace (32 :: toDec n) = toDec n := by
  obtain ⟨a, c, he, hcs, _⟩ := toDec_structure n
  unfold trimSpace
  rw [he]
  rw [show (32 : Nat) :: (a ++ [c]) = (32 :: a) ++ [c] from by simp]
  rw [trimRight_snoc_nonspace _ c hcs]
  rw [show ((32 : Nat) :: a) ++ [c] = 32 :: (a ++ [c]) from by simp]
  rw [List.dropWhile_cons]
  have : isSpaceByte 32 = true := rfl
  rw [this]
  simp only [if_pos]
  rw [← he]
  cases hm : toDec n with
  | nil => exact absurd hm (toDec_ne_nil n)
  | cons b bs =>
    have hb := toDec_digits n b (by rw [hm]; exact List.mem_cons_self b bs)
    have : isSpaceByte b = false := by
      unfold isSpaceByte
      simp
      omega
    simp [List.dropWhile_cons, this]

theorem readHeaders_cl (n : Nat) (s : Bytes) (cl : Int) :
    readHeaders ((clBytes ++ 32 :: toDec n) ++ [13, 10] ++ s) cl
      = readHeaders s (n : Int) := by
  have h10 : (10 : Nat) ∉ (clBytes ++ 32 :: toDec n) ++ [13] := by
    intro hm
    rcases List.mem_append.mp hm with h1 | h2
    · rcases List.mem_append.mp h1 with ha | hb
      · simp [clBytes] at ha
      · rcases List.mem_cons.mp hb with hc | hd
        · cases hc
        · have := toDec_digits n 10 hd
          omega
    · simp at h2
  have hline : readLine ((clBytes ++ 32 :: toDec n) ++ [13, 10] ++ s)
      = some ((clBytes ++ 32 :: toDec n) ++ [13, 10], s) := by
    have := readLine_no_nl ((clBytes ++ 32 :: toDec n) ++ [13]) s h10
    simpa [List.append_assoc] using this
  rw [readHeaders_cons _ cl _ _ hline, trimSpace_cl_line]
  have hne : clBytes ++ 32 :: toDec n ≠ [] := by simp [clBytes]
  have hpre : clBytes.isPrefixOf (clBytes ++ 32 :: toDec n) = true :=
    isPrefixOf_append_self clBytes (32 :: toDec n)
  have hdrop : (clBytes ++ 32 :: toDec n).drop clBytes.length = 32 :: toDec n :=
    List.drop_left clBytes (32 :: toDec n)
  rw [if_neg hne, if_pos hpre, hdrop, trimSpace_space_toDec, atoi_toDec]

/-! ## Frame transparency -/

/-- The exact bytes `WriteMessage` emits around a body:
`Content-Length: <n>\r\n\r\n<body>`. -/
def frameBytes (body : Bytes) : Bytes :=
  (clBytes ++ 32 :: toDec body.length) ++ [13, 10] ++ [13, 10] ++ body

/-- Decoding a frame produced for `body` yields exactly `body` and leaves
the rest of the stream untouched. -/
theorem ReadMessage_frameBytes (body rest : Bytes) :
    ReadMessage (frameBytes body ++ rest) = .ok (body, rest) := by
  unfold frameBytes ReadMessage
  rw [show ((clBytes ++ 32 :: toDec body.length) ++ [13, 10] ++ [13, 10] ++ body) ++ rest
      = (clBytes ++ 32 :: toDec body.length) ++ [13, 10] ++ (13 :: 10 :: (body ++ rest)) from by
    simp]
  rw [readHeaders_cl body.length (13 :: 10 :: (body ++ rest)) (-1)]
  rw [readHeaders_blank (body ++ rest) (body.length : Int)]
  have hnonneg : ¬ ((body.length : Int) < 0) := by omega
  simp only [hnonneg, if_neg, not_false_iff, Int.toNat_natCast]
  rw [if_pos (by simp)]
  rw [List.take_left, List.drop_left]

/-! ## JSON values and the three message kinds

The wire body of every frame is the compact JSON serialization of one of
the three Go structs `Request`, `Response`, `Notification`.  JSON values
are embedded as an AST; `serializeJson` models Go `json.Marshal` of such a
value (compact output, struct fields in declaration order, `omitempty`
fields dropped when nil).  The string-level JSON grammar itself belongs to
the Go standard library, outside this repository, so deserialization is
modelled at the AST level. -/

inductive Json
  | null
  | bool (b : Bool)
  | num (n : Int)
  | str (s : Bytes)
  | arr (elems : List Json)
  | obj (fields : List (Bytes × Json))

/-- Decimal bytes of an integer, with a leading minus sign if negative. -/
def intToDec (i : Int) : Bytes :=
  if i < 0 then 45 :: toDec (-i).toNat else toDec i.toNat

/-- JSON string escaping for one byte (quote, backslash and the common
control characters; other bytes pass through unchanged). -/
def escByte (b : Nat) : Bytes :=
  if b = 34 then [92, 34]
  else if b = 92 then [92, 92]
  else if b = 10 then [92, 110]
  else if b = 13 then [92, 114]
  else if b = 9 then [92, 116]
  else [b]

def escBytes : Bytes → Bytes
  | [] => []
  | b :: bs => escByte b ++ escBytes bs

mutual

/-- Compact serialization of a JSON value, as Go `json.Marshal` emits it. -/
def serializeJson : Json → Bytes
  | .null => [110, 117, 108, 108]
  | .bool true => [116, 114, 117, 101]
  | .bool false => [102, 97, 108, 115, 101]
  | .num n => intToDec n
  | .str s => 34 :: escBytes s ++ [34]
  | .arr es => 91 :: serializeArr es ++ [93]
  | .obj fs => 123 :: serializeObj fs ++ [125]

def serializeArr : List Json → Bytes
  | [] => []
  | [e] => serializeJson e
  | e :: es => serializeJson e ++ 44 :: serializeArr es

def serializeObj : List (Bytes × Json) → Bytes
  | [] => []
  | [(k, v)] => 34 :: escBytes k ++ [34, 58] ++ serializeJson v
  | (k, v) :: fs => 34 :: escBytes k ++ [34, 58] ++ serializeJson v ++ 44 :: serializeObj fs

end

/-- Protocol-level error object carried by a `Response`.
Modelled from the spec: the `LSPError` struct is not among the sources;
§4.4 reads its `Message` field and §3 calls it the Response's optional
error, so it is modelled as the standard error object with an integer
code and a message string. -/
structure LspError where
  code : Int
  message : Bytes
deriving DecidableEq

/-- The three message kinds of the protocol (`Request`, `Response`,
`Notification` structs of the `lsp` package). -/
inductive Msg
  | request (id : Int) (method : Bytes) (params : Option Json)
  | response (id : Int) (result : Option Json) (error : Option LspError)
  | notification (method : Bytes) (params : Option Json)

inductive MsgKind
  | request
  | response
  | notification
deriving DecidableEq

def Msg.kind : Msg → MsgKind
  | .request .. => .request
  | .response .. => .response
  | .notification .. => .notification

def Msg.idOf : Msg → Option Int
  | .request id _ _ => some id
  | .response id _ _ => some id
  | .notification _ _ => none

def Msg.methodOf : Msg → Option Bytes
  | .request _ m _ => some m
  | .response _ _ _ => none
  | .notification m _ => some m

def jsonrpcKey : Bytes := [106, 115, 111, 110, 114, 112, 99]

def idKey : Bytes := [105, 100]

def methodKey : Bytes := [109, 101, 116, 104, 111, 100]

def paramsKey : Bytes := [112, 97, 114, 97, 109, 115]

def resultKey : Bytes := [114, 101, 115, 117, 108, 116]

def errorKey : Bytes := [101, 114, 114, 111, 114]

def codeKey : Bytes := [99, 111, 100, 101]

def messageKey : Bytes := [109, 101, 115, 115, 97, 103, 101]

/-- The fixed protocol version tag both peers write: the bytes of `2.0`. -/
def jsonrpcVal : Bytes := [50, 46, 48]

/-- Optional struct field with `omitempty`: dropped when the value is nil. -/
def optField (name : Bytes) : Option Json → List (Bytes × Json)
  | none => []
  | some j => [(name, j)]

def lspErrorToJson (e : LspError) : Json :=
  .obj [(codeKey, .num e.code), (messageKey, .str e.message)]

/-- JSON object produced by `json.Marshal` for each message struct, with
fields in Go declaration order and `omitempty` on `params`, `result` and
`error`. -/
def msgToJson : Msg → Json
  | .request id m p =>
      .obj ([(jsonrpcKey, .str jsonrpcVal), (idKey, .num id), (methodKey, .str m)]
        ++ optField paramsKey p)
  | .response id r e =>
      .obj ([(jsonrpcKey, .str jsonrpcVal), (idKey, .num id)]
        ++ optField resultKey r ++ optField errorKey (e.map lspErrorToJson))
  | .notification m p =>
      .obj ([(jsonrpcKey, .str jsonrpcVal), (methodKey, .str m)]
        ++ optField paramsKey p)

/-- Model of `WriteMessage`: marshal the message, then emit
`Content-Length: <n>\r\n\r\n` followed by the body bytes. -/
def WriteMessage (m : Msg) : Bytes :=
  frameBytes (serializeJson (msgToJson m))

/-! ## AST-level deserialization (model of `json.Unmarshal` into the
message structs) -/

/-- First field with the given key in a JSON object. -/
def getField (k : Bytes) : List (Bytes × Json) → Option Json
  | [] => none
  | (k2, v) :: fs => if k2 = k then some v else getField k fs

/-- A JSON `null` stored in a Go `interface{}` is the nil interface, the
same value an absent field leaves behind; normalize the two. -/
def normOpt : Option Json → Option Json
  | some .null => none
  | x => x

/-- Unmarshal a field into a Go `int`: absent or null leaves the zero
value, a number is taken as is, any other shape is an unmarshal error. -/
def intField : Option Json → Option Int
  | none => some 0
  | some .null => some 0
  | some (.num n) => some n
  | _ => none

/-- Unmarshal a field into a Go `string`. -/
def strField : Option Json → Option Bytes
  | none => some []
  | some .null => some []
  | some (.str s) => some s
  | _ => none

def lspErrorOfJson : Json → Option LspError
  | .obj fs => do
      let c ← intField (getField codeKey fs)
      let m ← strField (getField messageKey fs)
      some ⟨c, m⟩
  | .null => none
  | _ => none

/-- Unmarshal a field into a Go `*LSPError`: absent or null gives the nil
pointer, an object is decoded, anything else is an unmarshal error. -/
def lspErrorField : Option Json → Option (Option LspError)
  | none => some none
  | some .null => some none
  | some (.obj fs) =>
      match lspErrorOfJson (.obj fs) with
      | none => none
      | some e => some (some e)
  | _ => none

def decodeRequestJson : Json → Option Msg
  | .obj fs => do
      let _ ← strField (getField jsonrpcKey fs)
      let id ← intField (getField idKey fs)
      let m ← strField (getField methodKey fs)
      some (.request id m (normOpt (getField paramsKey fs)))
  | _ => none

def decodeResponseJson : Json → Option Msg
  | .obj fs => do
      let _ ← strField (getField jsonrpcKey fs)
      let id ← intField (getField idKey fs)
      let e ← lspErrorField (getField errorKey fs)
      some (.response id (normOpt (getField resultKey fs)) e)
  | _ => none

def decodeNotificationJson : Json → Option Msg
  | .obj fs => do
      let _ ← strField (getField jsonrpcKey fs)
      let m ← strField (getField methodKey fs)
      some (.notification m (normOpt (getField paramsKey fs)))
  | _ => none

/-- Unmarshal a message body into the struct of the given kind. -/
def decodeBody : MsgKind → Json → Option Msg
  | .request => decodeRequestJson
  | .response => decodeResponseJson
  | .notification => decodeNotificationJson

/-- Go-level equivalence: a `params`/`result` equal to JSON `null` and an
absent one are the same nil `interface{}` value. -/
def msgNorm : Msg → Msg
  | .request id m p => .request id m (normOpt p)
  | .response id r e => .response id (normOpt r) e
  | .notification m p => .notification m (normOpt p)

theorem getField_cons_eq (k : Bytes) (v : Json) (fs : List (Bytes × Json)) :
    getField k ((k, v) :: fs) = some v := by
  simp [getField]

theorem getField_cons_ne (k k2 : Bytes) (v : Json) (fs : List (Bytes × Json))
    (h : k2 ≠ k) : getField k ((k2, v) :: fs) = getField k fs := by
  simp [getField, h]

theorem lspErrorOfJson_toJson (e : LspError) :
    lspErrorOfJson (lspErrorToJson e) = some e := rfl

theorem decodeBody_msgToJson (m : Msg) :
    decodeBody m.kind (msgToJson m) = some (msgNorm m) := by
  cases m with
  | request id mth p => cases p <;> rfl
  | response id r e => cases r <;> cases e <;> rfl
  | notification mth p => cases p <;> rfl

/-! ## The correlation engine (`Client`)

`Client` keeps a 32-bit atomic request counter, a pending-request map
(`map[int]*pendingRequest`, each entry holding a one-slot response channel
and a one-slot error channel) and a cancellation context.  The map is
embedded as an association list (Go map assignment replaces any existing
entry; iteration order is never observed), a channel as its at-most-one
buffered value, and the context as a `ctxDone` flag.  The diagnostics
table, mutated only by the notification handler, is not needed by any
claim and is left out of the state. -/

/-- A response delivered by the read loop: the fields of the Go `Response`
struct (`jsonrpc` is the constant tag). -/
structure RespMsg where
  id : Int
  result : Option Json
  error : Option LspError

/-- One `pendingRequest`: the buffered contents of its two channels. -/
structure PendingSlot where
  response : Option RespMsg
  errSignal : Bool

/-- Freshly registered pending request: both channels empty. -/
def emptySlot : PendingSlot := ⟨none, false⟩

abbrev PendingMap := List (Int × PendingSlot)

def lookupPending (id : Int) : PendingMap → Option PendingSlot
  | [] => none
  | (k, v) :: ps => if k = id then some v else lookupPending id ps

/-- Go `delete(c.pending, id)`. -/
def erasePending (id : Int) (ps : PendingMap) : PendingMap :=
  ps.filter (fun kv => kv.1 != id)

/-- Go `c.pending[id] = v` (replaces any entry under the same key). -/
def insertPending (id : Int) (v : PendingSlot) (ps : PendingMap) : PendingMap :=
  erasePending id ps ++ [(id, v)]

structure ClientState where
  counter : Int
  pending : PendingMap
  ctxDone : Bool

/-- A client produced by `New`: zero counter, empty map, live context. -/
def initialClient : ClientState := ⟨0, [], false⟩

/-- Two's-complement wrap of `atomic.Int32.Add`: the stored counter always
lies in `[-2^31, 2^31)`. -/
def wrap32 (x : Int) : Int := (x + 2 ^ 31) % 2 ^ 32 - 2 ^ 31

/-- Model of `SendRequest`: allocate the next id, register an empty pending
slot, then write the request frame; `writeOk` is whether that write
succeeds.  On failure the slot is deleted again and the error returned. -/
def SendRequest (writeOk : Bool) (s : ClientState) : Except Unit Int × ClientState :=
  let id := wrap32 (s.counter + 1)
  let s1 : ClientState := ⟨id, insertPending id emptySlot s.pending, s.ctxDone⟩
  if writeOk then (.ok id, s1)
  else (.error (), ⟨id, erasePending id s1.pending, s.ctxDone⟩)

/-- Outcome of one `WaitForResponse` call.  `blocked` stands for the
`select` suspending because no channel is ready and the context is live. -/
inductive WaitOutcome
  | got (r : RespMsg)
  | failed
  | cancelled
  | noPending
  | blocked

/-- Model of `WaitForResponse`: an unknown id errors immediately;
otherwise consume the response channel, the error channel or the
cancellation signal, deleting the entry, or stay blocked. -/
def WaitForResponse (id : Int) (s : ClientState) : WaitOutcome × ClientState :=
  match lookupPending id s.pending with
  | none => (.noPending, s)
  | some slot =>
    match slot.response with
    | some r => (.got r, ⟨s.counter, erasePending id s.pending, s.ctxDone⟩)
    | none =>
      if slot.errSignal then (.failed, ⟨s.counter, erasePending id s.pending, s.ctxDone⟩)
      else if s.ctxDone then (.cancelled, ⟨s.counter, erasePending id s.pending, s.ctxDone⟩)
      else (.blocked, s)

/-- Unmarshal of an incoming body into the `Response` struct, as the read
loop performs after seeing a non-nil id. -/
def respOfJson : Json → Option RespMsg
  | .obj fs => do
      let _ ← strField (getField jsonrpcKey fs)
      let id ← intField (getField idKey fs)
      let e ← lspErrorField (getField errorKey fs)
      some ⟨id, normOpt (getField resultKey fs), e⟩
  | _ => none

/-- Fill the response channel of the pending entry for `r.id`, if any;
with no matching entry the response is silently dropped. -/
def deliverResp (r : RespMsg) (ps : PendingMap) : PendingMap :=
  ps.map (fun kv => if kv.1 = r.id then (kv.1, ⟨some r, kv.2.errSignal⟩) else kv)

/-- Fill the error channel of the pending entry for `id`, if any. -/
def signalErr (id : Int) (ps : PendingMap) : PendingMap :=
  ps.map (fun kv => if kv.1 = id then (kv.1, ⟨kv.2.response, true⟩) else kv)

/-- One input to the read loop: either `ReadMessage` failed (EOF from a
dead process, or a framing error), or it produced a body whose JSON value
is `j`. -/
inductive ReadEvent
  | readErr
  | msg (j : Json)

/-- One iteration of `readLoop`.  The returned flag is whether the loop
exits.  A read failure with a live context is `continue` - the state is
untouched; only a failure observed after cancellation ends the loop.  A
body whose `id` field is a number is routed to the matching pending entry
(response channel, or error channel if the `Response` unmarshal fails);
anything else is the notification path, which touches only the
diagnostics table. -/
def readLoopStep (ev : ReadEvent) (s : ClientState) : ClientState × Bool :=
  if s.ctxDone then (s, true)
  else
    match ev with
    | .readErr => (s, false)
    | .msg (.obj fs) =>
      match getField idKey fs with
      | some (.num n) =>
        (match respOfJson (.obj fs) with
         | some r => (⟨s.counter, deliverResp r s.pending, s.ctxDone⟩, false)
         | none => (⟨s.counter, signalErr n s.pending, s.ctxDone⟩, false))
      | _ => (s, false)
    | .msg _ => (s, false)

/-- The read loop fed `k` consecutive read failures, as after the external
process exits and every further `ReadMessage` returns an error. -/
def readLoopOnEOF : Nat → ClientState → ClientState
  | 0, s => s
  | k + 1, s => readLoopOnEOF k (readLoopStep .readErr s).1

/-- Client state after `n` successful `SendRequest` calls starting from a
fresh client. -/
def sendN : Nat → ClientState
  | 0 => initialClient
  | n + 1 => (SendRequest true (sendN n)).2

/-- The request id handed out by the n-th successful `SendRequest` call on
one client instance (ids equal the counter value after the `Add(1)`). -/
def nthRequestId (n : Nat) : Int := (sendN n).counter

theorem wrap32_wrap32_add_one (a : Int) : wrap32 (wrap32 a + 1) = wrap32 (a + 1) := by
  unfold wrap32
  omega

theorem sendN_counter (n : Nat) : (sendN n).counter = wrap32 (n : Int) := by
  induction n with
  | zero => rfl
  | succ n ih =>
    show (SendRequest true (sendN n)).2.counter = _
    unfold SendRequest
    simp only [if_pos]
    rw [ih, wrap32_wrap32_add_one]
    push_cast
    rfl

theorem nthRequestId_formula (n : Nat) : nthRequestId n = wrap32 (n : Int) :=
  sendN_counter n

theorem erasePending_absent (id : Int) (ps : PendingMap)
    (h : lookupPending id ps = none) : erasePending id ps = ps := by
  induction ps with
  | nil => rfl
  | cons kv ps ih =>
    obtain ⟨k, v⟩ := kv
    unfold lookupPending at h
    by_cases hk : k = id
    · rw [if_pos hk] at h
      cases h
    · rw [if_neg hk] at h
      unfold erasePending at ih ⊢
      simp only [List.filter_cons]
      have : (k != id) = true := by simp [hk]
      rw [this]
      simp only [if_pos]
      rw [ih h]

theorem erasePending_insertPending (id : Int) (v : PendingSlot) (ps : PendingMap) :
    erasePending id (insertPending id v ps) = erasePending id ps := by
  unfold insertPending erasePending
  rw [List.filter_append]
  simp

/-! ## The protocol operations facade

Each operation checks `IsInitialized`, sends a request or notification and
interprets the awaited response.  The embedding makes the two I/O
outcomes inputs of the function: `sendOk` is whether the frame write
succeeds, `waitRes` is what `WaitForResponse` returned (a response, or a
failure).  Each operation returns its result together with the list of
frames it handed to `WriteMessage`, in call order, so that "no frame is
written" is a provable statement. -/

/-- Error taxonomy of the facade operations (spec §7). -/
inductive FacadeErr
  | notReady
  | sendFailed
  | waitFailed
  | protocolError
  | decodeFailed
deriving DecidableEq

/-- A frame successfully written to the server, reduced to the message it
carries. -/
inductive Frame
  | request (id : Int) (method : Bytes) (params : Option Json)
  | notification (method : Bytes) (params : Option Json)

def shutdownMethod : Bytes := [115, 104, 117, 116, 100, 111, 119, 110]

def exitMethod : Bytes := [101, 120, 105, 116]

def didOpenMethod : Bytes :=
  [116, 101, 120, 116, 68, 111, 99, 117, 109, 101, 110, 116, 47, 100, 105, 100, 79, 112, 101, 110]

/-- Model of `fileToURI`: prefix the absolute path with `file://`
(`filepath.Abs` is resolution against the process working directory, an
environment effect; paths are taken as already absolute). -/
def fileToURI (path : Bytes) : Bytes := [102, 105, 108, 101, 58, 47, 47] ++ path

/-- Scan of `filepath.Ext` from the end of the path: stop at a path
separator, return from the last dot. `acc` carries the bytes already
passed, in original order. -/
def extScan (acc : Bytes) : Bytes → Bytes
  | [] => []
  | b :: bs => if b = 47 then [] else if b = 46 then 46 :: acc else extScan (b :: acc) bs

def extOf (path : Bytes) : Bytes := extScan [] path.reverse

/-- ASCII lower-casing of `strings.ToLower`. -/
def toLowerByte (b : Nat) : Nat := if 65 ≤ b ∧ b ≤ 90 then b + 32 else b

/-- The fixed extension-to-language table of `getLanguageID`; unknown
extensions map to `plaintext`. -/
def getLanguageID (path : Bytes) : Bytes :=
  let ext := (extOf path).map toLowerByte
  if ext = [46, 112, 121] then [112, 121, 116, 104, 111, 110]
  else if ext = [46, 103, 111] then [103, 111]
  else if ext = [46, 106, 115] then [106, 97, 118, 97, 115, 99, 114, 105, 112, 116]
  else if ext = [46, 116, 115] then [116, 121, 112, 101, 115, 99, 114, 105, 112, 116]
  else if ext = [46, 116, 115, 120] then
    [116, 121, 112, 101, 115, 99, 114, 105, 112, 116, 114, 101, 97, 99, 116]
  else if ext = [46, 106, 115, 120] then
    [106, 97, 118, 97, 115, 99, 114, 105, 112, 116, 114, 101, 97, 99, 116]
  else if ext = [46, 114, 115] then [114, 117, 115, 116]
  else if ext = [46, 99] then [99]
  else if ext = [46, 99, 112, 112] ∨ ext = [46, 99, 99] ∨ ext = [46, 99, 120, 120] then
    [99, 112, 112]
  else if ext = [46, 104] then [99]
  else if ext = [46, 104, 112, 112] then [99, 112, 112]
  else if ext = [46, 106, 97, 118, 97] then [106, 97, 118, 97]
  else if ext = [46, 114, 98] then [114, 117, 98, 121]
  else if ext = [46, 106, 115, 111, 110] then [106, 115, 111, 110]
  else if ext = [46, 121, 97, 109, 108] ∨ ext = [46, 121, 109, 108] then [121, 97, 109, 108]
  else if ext = [46, 109, 100] then [109, 97, 114, 107, 100, 111, 119, 110]
  else if ext = [46, 104, 116, 109, 108] then [104, 116, 109, 108]
  else if ext = [46, 99, 115, 115] then [99, 115, 115]
  else if ext = [46, 115, 104] then [115, 104, 101, 108, 108, 115, 99, 114, 105, 112, 116]
  else [112, 108, 97, 105, 110, 116, 101, 120, 116]

def textDocumentKey : Bytes := [116, 101, 120, 116, 68, 111, 99, 117, 109, 101, 110, 116]

def uriKey : Bytes := [117, 114, 105]

def languageIdKey : Bytes := [108, 97, 110, 103, 117, 97, 103, 101, 73, 100]

def versionKey : Bytes := [118, 101, 114, 115, 105, 111, 110]

def textKey : Bytes := [116, 101, 120, 116]

/-- The `DidOpenTextDocumentParams` payload of `OpenDocument`. -/
def didOpenParams (path content : Bytes) : Json :=
  .obj [(textDocumentKey, .obj
    [(uriKey, .str (fileToURI path)),
     (languageIdKey, .str (getLanguageID path)),
     (versionKey, .num 1),
     (textKey, .str content)])]

/-- Model of `OpenDocument`: a not-initialized client fails fast with
`client not initialized` (the spec's `NotReadyError`) and writes nothing;
otherwise the `textDocument/didOpen` notification is sent. -/
def OpenDocument (initialized writeOk : Bool) (path content : Bytes) :
    Except FacadeErr Unit × List Frame :=
  if !initialized then (.error .notReady, [])
  else if writeOk then
    (.ok (), [.notification didOpenMethod (some (didOpenParams path content))])
  else (.error .sendFailed, [.notification didOpenMethod (some (didOpenParams path content))])

/-- Model of `Shutdown`: a never-initialized client is a no-op success;
otherwise send the `shutdown` request, wait, and on any awaited response
(error member or not) send the `exit` notification. -/
def Shutdown (initialized : Bool) (sendOk : Bool) (id : Int)
    (waitRes : Except Unit RespMsg) : Except FacadeErr Unit × List Frame :=
  if !initialized then (.ok (), [])
  else if !sendOk then (.error .sendFailed, [.request id shutdownMethod none])
  else
    match waitRes with
    | .error _ => (.error .waitFailed, [.request id shutdownMethod none])
    | .ok _ => (.ok (), [.request id shutdownMethod none, .notification exitMethod none])

/-! ## Completion and definition result decoding -/

def itemsKey : Bytes := [105, 116, 101, 109, 115]

def labelKey : Bytes := [108, 97, 98, 101, 108]

def kindKey : Bytes := [107, 105, 110, 100]

def detailKey : Bytes := [100, 101, 116, 97, 105, 108]

def insertTextKey : Bytes := [105, 110, 115, 101, 114, 116, 84, 101, 120, 116]

/-- Completion item returned to the editor.
Modelled from the spec: the `CompletionItem` struct is not among the
sources; §4.4 only names the type, so it is modelled as the standard
completion item the capability declaration in `Initialize` asks for
(label, kind, detail, insert text), with Go zero values for absent
fields. -/
structure CompletionItem where
  label : Bytes
  kind : Int
  detail : Bytes
  insertText : Bytes
deriving DecidableEq

/-- Marshal one generic array element back to bytes and unmarshal it into
`CompletionItem`, as `GetCompletions` does per item: a JSON object decodes
field-wise (wrongly-typed fields fail), `null` decodes to the zero item,
any other shape is an unmarshal error. -/
def completionItemOfJson : Json → Option CompletionItem
  | .null => some ⟨[], 0, [], []⟩
  | .obj fs => do
      let l ← strField (getField labelKey fs)
      let k ← intField (getField kindKey fs)
      let d ← strField (getField detailKey fs)
      let t ← strField (getField insertTextKey fs)
      some ⟨l, k, d, t⟩
  | _ => none

/-- The result-shape switch of `GetCompletions`: nil gives the empty list,
a bare array decodes item-wise skipping failures, an object is searched
for an `items` array decoded the same way, anything else gives the empty
list. -/
def completionsFromResult : Option Json → List CompletionItem
  | some (.arr items) => items.filterMap completionItemOfJson
  | some (.obj fs) =>
    match getField itemsKey fs with
    | some (.arr items) => items.filterMap completionItemOfJson
    | _ => []
  | _ => []

/-- Model of `GetCompletions` around one request/response exchange. -/
def GetCompletions (initialized sendOk : Bool) (waitRes : Except Unit RespMsg) :
    Except FacadeErr (List CompletionItem) :=
  if !initialized then .error .notReady
  else if !sendOk then .error .sendFailed
  else
    match waitRes with
    | .error _ => .error .waitFailed
    | .ok resp =>
      match resp.error with
      | some _ => .error .protocolError
      | none => .ok (completionsFromResult resp.result)

def startKey : Bytes := [115, 116, 97, 114, 116]

def endKey : Bytes := [101, 110, 100]

def lineKey : Bytes := [108, 105, 110, 101]

def characterKey : Bytes := [99, 104, 97, 114, 97, 99, 116, 101, 114]

def rangeKey : Bytes := [114, 97, 110, 103, 101]

/-- Zero-based text position.
Modelled from the spec: the `lsp.Position` struct is not among the
sources; §4.4 passes zero-based line/column. -/
structure TextPos where
  line : Int
  character : Int
deriving DecidableEq

/-- Modelled from the spec: the `Range` struct is not among the sources;
§3 describes diagnostic ranges as start/end positions (`end` is spelled
`stop` because it is reserved in Lean). -/
structure TextRange where
  start : TextPos
  stop : TextPos
deriving DecidableEq

/-- Modelled from the spec: the `Location` struct is not among the
sources; the glossary's document locator plus a range. -/
structure Location where
  uri : Bytes
  range : TextRange
deriving DecidableEq

def textPosOfJson : Json → Option TextPos
  | .null => some ⟨0, 0⟩
  | .obj fs => do
      let l ← intField (getField lineKey fs)
      let c ← intField (getField characterKey fs)
      some ⟨l, c⟩
  | _ => none

def textPosField : Option Json → Option TextPos
  | none => some ⟨0, 0⟩
  | some j => textPosOfJson j

def textRangeOfJson : Json → Option TextRange
  | .null => some ⟨⟨0, 0⟩, ⟨0, 0⟩⟩
  | .obj fs => do
      let s ← textPosField (getField startKey fs)
      let e ← textPosField (getField endKey fs)
      some ⟨s, e⟩
  | _ => none

def textRangeField : Option Json → Option TextRange
  | none => some ⟨⟨0, 0⟩, ⟨0, 0⟩⟩
  | some j => textRangeOfJson j

/-- Unmarshal a generic JSON value into `Location`, as `GoToDefinition`
does for a single object result or the first array element. -/
def locOfJson : Json → Option Location
  | .null => some ⟨[], ⟨⟨0, 0⟩, ⟨0, 0⟩⟩⟩
  | .obj fs => do
      let u ← strField (getField uriKey fs)
      let r ← textRangeField (getField rangeKey fs)
      some ⟨u, r⟩
  | _ => none

/-- Model of `GoToDefinition` around one request/response exchange: a nil
result is no definition, an object is one location, a nonempty array
yields its first element only, an empty array or any other shape is no
definition. -/
def GoToDefinition (initialized sendOk : Bool) (waitRes : Except Unit RespMsg) :
    Except FacadeErr (Option Location) :=
  if !initialized then .error .notReady
  else if !sendOk then .error .sendFailed
  else
    match waitRes with
    | .error _ => .error .waitFailed
    | .ok resp =>
      match resp.error with
      | some _ => .error .protocolError
      | none =>
        match resp.result with
        | none => .ok none
        | some (.obj fs) =>
          (match locOfJson (.obj fs) with
           | some loc => .ok (some loc)
           | none => .error .decodeFailed)
        | some (.arr (j :: _)) =>
          (match locOfJson j with
           | some loc => .ok (some loc)
           | none => .error .decodeFailed)
        | some (.arr []) => .ok none
        | some _ => .ok none

/-! ## Header-line generality infrastructure for the `ReadMessage` contract -/

/-- A header line other than the content-length one: no newline inside,
not blank after trimming, and not carrying the `Content-Length:` name. -/
abbrev otherHeaderLine (L : Bytes) : Prop :=
  10 ∉ L ∧ trimSpace L ≠ [] ∧ clBytes.isPrefixOf (trimSpace L) = false

/-- Join header lines onto the wire, each terminated by `\r\n`. -/
def joinCRLF : List Bytes → Bytes
  | [] => []
  | l :: ls => l ++ [13, 10] ++ joinCRLF ls

theorem readHeaders_joinCRLF_other (hs : List Bytes) (s : Bytes) (cl : Int)
    (h : ∀ L ∈ hs, otherHeaderLine L) :
    readHeaders (joinCRLF hs ++ s) cl = readHeaders s cl := by
  induction hs with
  | nil => rfl
  | cons L ls ih =>
    obtain ⟨h10, hne, hpre⟩ := h L (List.mem_cons_self L ls)
    have hrest : ∀ L2 ∈ ls, otherHeaderLine L2 :=
      fun L2 hm => h L2 (List.mem_cons_of_mem L hm)
    have he : joinCRLF (L :: ls) ++ s = L ++ [13, 10] ++ (joinCRLF ls ++ s) := by
      simp [joinCRLF, List.append_assoc]
    rw [he, readHeaders_other L _ cl h10 hne hpre, ih hrest]

theorem readHeaders_blank2 (s : Bytes) (cl : Int) :
    readHeaders ([13, 10] ++ s) cl = .ok (cl, s) :=
  readHeaders_blank s cl

theorem readHeaders_badCL (v s : Bytes) (cl : Int) (h10 : 10 ∉ v)
    (hbad : atoi (trimSpace v) = none) :
    readHeaders ((clBytes ++ v) ++ [13, 10] ++ s) cl = .error .invalidLength := by
  have h10' : (10 : Nat) ∉ (clBytes ++ v) ++ [13] := by
    intro hm
    rcases List.mem_append.mp hm with h1 | h2
    · rcases List.mem_append.mp h1 with ha | hb
      · simp [clBytes] at ha
      · exact h10 hb
    · simp at h2
  have hline : readLine ((clBytes ++ v) ++ [13, 10] ++ s)
      = some ((clBytes ++ v) ++ [13, 10], s) := by
    have := readLine_no_nl ((clBytes ++ v) ++ [13]) s h10'
    simpa [List.append_assoc] using this
  rw [readHeaders_cons _ cl _ _ hline]
  have ht : trimSpace ((clBytes ++ v) ++ [13, 10]) = clBytes ++ trimRight v := by
    unfold trimSpace
    rw [trimRight_append_spaces (clBytes ++ v) [13, 10]
      (by intro b hb; simp at hb; rcases hb with h | h <;> subst h <;> rfl)]
    rw [show clBytes ++ v
        = ([67, 111, 110, 116, 101, 110, 116, 45, 76, 101, 110, 103, 116, 104] ++ [58]) ++ v
      from rfl]
    rw [trimRight_append_nonspace_mid
      [67, 111, 110, 116, 101, 110, 116, 45, 76, 101, 110, 103, 116, 104] v 58 rfl]
    rw [show ([67, 111, 110, 116, 101, 110, 116, 45, 76, 101, 110, 103, 116, 104] ++ [58])
          ++ trimRight v
        = 67 :: ([111, 110, 116, 101, 110, 116, 45, 76, 101, 110, 103, 116, 104, 58]
          ++ trimRight v) from rfl]
    rw [List.dropWhile_cons]
    rfl
  rw [ht]
  have hne : clBytes ++ trimRight v ≠ [] := by simp [clBytes]
  rw [if_neg hne, if_pos (isPrefixOf_append_self clBytes (trimRight v)),
    List.drop_left clBytes (trimRight v)]
  have hv : trimSpace (trimRight v) = trimSpace v := by
    unfold trimSpace
    rw [trimRight_idem]
  rw [hv, hbad]

/-! ## Claim theorems -/

/-- C3: encoding a message of any of the three kinds with `WriteMessage`
and then decoding the produced byte stream with `ReadMessage` yields
exactly the serialized body bytes; that body unmarshals back into a
message of the same kind with the same id, method and
params/result/error, where an explicit JSON `null` in an optional slot
and an absent slot are the same Go nil-interface value. -/
theorem writeMessage_readMessage_roundtrip (m : Msg) (rest : Bytes) :
    ReadMessage (WriteMessage m ++ rest) = .ok (serializeJson (msgToJson m), rest)
    ∧ decodeBody m.kind (msgToJson m) = some (msgNorm m)
    ∧ (msgNorm m).kind = m.kind
    ∧ (msgNorm m).idOf = m.idOf
    ∧ (msgNorm m).methodOf = m.methodOf := by
  refine ⟨?_, decodeBody_msgToJson m, ?_, ?_, ?_⟩
  · unfold WriteMessage
    exact ReadMessage_frameBytes _ rest
  · cases m <;> rfl
  · cases m <;> rfl
  · cases m <;> rfl

/-- C8: `ReadMessage` reads header lines until a blank line, tolerating
other header lines in any order around the `Content-Length:` one, then
reads exactly the declared number of body bytes (no trailing newline
required, surplus stream bytes untouched); a header block without a
content length fails with the missing-length framing error, and a
`Content-Length:` line whose value does not parse as a number fails with
the invalid-length framing error. -/
theorem readMessage_header_contract (before after : List Bytes)
    (body rest v s2 s3 : Bytes)
    (hb : ∀ L ∈ before, otherHeaderLine L)
    (ha : ∀ L ∈ after, otherHeaderLine L)
    (h10v : 10 ∉ v)
    (hbad : atoi (trimSpace v) = none) :
    ReadMessage (joinCRLF before ++ (clBytes ++ 32 :: toDec body.length) ++ [13, 10]
        ++ joinCRLF after ++ [13, 10] ++ body ++ rest) = .ok (body, rest)
    ∧ ReadMessage (joinCRLF before ++ [13, 10] ++ s2) = .error .missingLength
    ∧ ReadMessage (joinCRLF before ++ (clBytes ++ v) ++ [13, 10] ++ s3)
        = .error .invalidLength := by
  refine ⟨?_, ?_, ?_⟩
  · unfold ReadMessage
    rw [show joinCRLF before ++ (clBytes ++ 32 :: toDec body.length) ++ [13, 10]
          ++ joinCRLF after ++ [13, 10] ++ body ++ rest
        = joinCRLF before ++ (((clBytes ++ 32 :: toDec body.length) ++ [13, 10])
          ++ (joinCRLF after ++ ([13, 10] ++ (body ++ rest))))
      from by simp [List.append_assoc]]
    rw [readHeaders_joinCRLF_other before _ _ hb]
    rw [readHeaders_cl body.length _ (-1)]
    rw [readHeaders_joinCRLF_other after _ _ ha]
    rw [readHeaders_blank2]
    have hnonneg : ¬ ((body.length : Int) < 0) := by omega
    simp only [hnonneg, if_neg, not_false_iff, Int.toNat_natCast]
    rw [if_pos (by simp)]
    rw [List.take_left, List.drop_left]
  · unfold ReadMessage
    rw [show joinCRLF before ++ [13, 10] ++ s2 = joinCRLF before ++ ([13, 10] ++ s2)
      from by simp [List.append_assoc]]
    rw [readHeaders_joinCRLF_other before _ _ hb]
    rw [readHeaders_blank2]
    rfl
  · unfold ReadMessage
    rw [show joinCRLF before ++ (clBytes ++ v) ++ [13, 10] ++ s3
        = joinCRLF before ++ (((clBytes ++ v) ++ [13, 10]) ++ s3)
      from by simp [List.append_assoc]]
    rw [readHeaders_joinCRLF_other before _ _ hb]
    rw [readHeaders_badCL v s3 _ h10v hbad]

theorem readMessage_header_contract_witness :
    (ReadMessage (joinCRLF [[88]] ++ (clBytes ++ 32 :: toDec [49].length) ++ [13, 10]
        ++ joinCRLF [] ++ [13, 10] ++ [49] ++ []) = .ok ([49], [])
    ∧ ReadMessage (joinCRLF [[88]] ++ [13, 10] ++ []) = .error .missingLength
    ∧ ReadMessage (joinCRLF [[88]] ++ (clBytes ++ [120]) ++ [13, 10] ++ [])
        = .error .invalidLength) :=
  readMessage_header_contract [[88]] [] [49] [] [120] [] []
    (by
      intro L hL
      rw [List.mem_singleton] at hL
      subst hL
      exact ⟨by decide, by decide, by decide⟩)
    (by intro L hL; exact absurd hL (List.not_mem_nil L))
    (by decide)
    rfl

/-- C2 counterexample: the request counter is a 32-bit atomic.  The
\(2^{31}\)-th successful send is assigned id \(-2^{31}\), not \(2^{31}\),
and the id of send \(2^{32}+1\) repeats the id of send 1, so the ids are
not drawn from an unbounded monotonically increasing counter and do
repeat within one instance's lifetime. -/
theorem sendRequest_id_wraps :
    nthRequestId (2 ^ 31) = -(2 ^ 31)
    ∧ nthRequestId (2 ^ 31) ≠ ((2 ^ 31 : Nat) : Int)
    ∧ nthRequestId (2 ^ 32 + 1) = nthRequestId 1 := by
  have h1 := nthRequestId_formula (2 ^ 31)
  have h2 := nthRequestId_formula (2 ^ 32 + 1)
  have h3 := nthRequestId_formula 1
  unfold wrap32 at h1 h2 h3
  refine ⟨?_, ?_, ?_⟩
  · rw [h1]
    norm_num
  · rw [h1]
    norm_num
  · rw [h2, h3]
    norm_num

/-- C2 amended: ids are produced by the 32-bit wrap of a single counter
that starts at 1; as long as fewer than \(2^{31}\) requests are sent the
n-th successful send is assigned id n exactly, and no id repeats within
the first \(2^{32}\) sends.  Beyond those bounds the 32-bit counter wraps
(see the counterexample). -/
theorem sendRequest_ids_amended :
    (∀ n : Nat, 0 < n → (n : Int) < 2 ^ 31 → nthRequestId n = n)
    ∧ (∀ m n : Nat, 0 < m → m < n → (n : Int) ≤ 2 ^ 32 →
        nthRequestId m ≠ nthRequestId n) := by
  constructor
  · intro n h1 h2
    rw [nthRequestId_formula]
    unfold wrap32
    omega
  · intro m n h1 h2 h3
    rw [nthRequestId_formula, nthRequestId_formula]
    unfold wrap32
    omega

theorem sendRequest_ids_amended_witness :
    nthRequestId 3 = 3 ∧ nthRequestId 1 ≠ nthRequestId 2 :=
  ⟨sendRequest_ids_amended.1 3 (by norm_num) (by norm_num),
   sendRequest_ids_amended.2 1 2 (by norm_num) (by norm_num) (by norm_num)⟩

/-- C6: when the frame write inside `SendRequest` fails, the call reports
the failure immediately and the pending entry just registered under the
fresh id is deleted again, so the pending map is exactly its pre-call
value (the freshness hypothesis holds whenever ids have not yet wrapped
around). -/
theorem sendRequest_write_failure_restores_pending (s : ClientState)
    (h : lookupPending (wrap32 (s.counter + 1)) s.pending = none) :
    (SendRequest false s).1 = .error ()
    ∧ (SendRequest false s).2.pending = s.pending := by
  constructor
  · rfl
  · show erasePending _ (insertPending _ emptySlot s.pending) = s.pending
    rw [erasePending_insertPending, erasePending_absent _ _ h]

theorem sendRequest_write_failure_restores_pending_witness :
    (SendRequest false initialClient).1 = .error ()
    ∧ (SendRequest false initialClient).2.pending = initialClient.pending :=
  sendRequest_write_failure_restores_pending initialClient rfl

/-- C10: `WaitForResponse` on an id with no registered pending request
returns the `no pending request` error straight away - not the blocked
outcome - and leaves the pending map untouched. -/
theorem waitForResponse_unknown_id (id : Int) (s : ClientState)
    (h : lookupPending id s.pending = none) :
    WaitForResponse id s = (.noPending, s) := by
  unfold WaitForResponse
  rw [h]

theorem waitForResponse_unknown_id_witness :
    WaitForResponse 7 initialClient = (.noPending, initialClient) :=
  waitForResponse_unknown_id 7 initialClient rfl

/-- C1 is violated by the code: with request id 1 outstanding and the
context not cancelled, a read failure (EOF after the external process
exits) makes `readLoop` `continue` without resolving or cancelling
anything, so arbitrarily many such iterations leave the state unchanged
and the caller inside `WaitForResponse` stays blocked instead of
receiving the required `CancelledError`. -/
theorem readLoop_eof_never_resolves_pending :
    (∀ k, readLoopOnEOF k ⟨1, [(1, emptySlot)], false⟩ = ⟨1, [(1, emptySlot)], false⟩)
    ∧ (WaitForResponse 1 ⟨1, [(1, emptySlot)], false⟩).1 = WaitOutcome.blocked
    ∧ (WaitForResponse 1 ⟨1, [(1, emptySlot)], false⟩).2 = ⟨1, [(1, emptySlot)], false⟩ := by
  refine ⟨?_, rfl, rfl⟩
  intro k
  induction k with
  | zero => rfl
  | succ k ih =>
    show readLoopOnEOF k (readLoopStep .readErr ⟨1, [(1, emptySlot)], false⟩).1 = _
    rw [show (readLoopStep .readErr ⟨1, [(1, emptySlot)], false⟩).1
        = ⟨1, [(1, emptySlot)], false⟩ from rfl]
    exact ih

/-- C4: the completion result switch accepts a nil result as the empty
list (a success, not an error), decodes a bare array item-wise, decodes
an object's `items` array to the same list as the bare array, and skips
any single item that fails to decode while keeping the rest. -/
theorem getCompletions_result_shapes (rid : Int) (items pre post : List Json)
    (bad : Json) :
    GetCompletions true true (.ok ⟨rid, none, none⟩) = .ok []
    ∧ GetCompletions true true (.ok ⟨rid, some (.arr items), none⟩)
        = .ok (items.filterMap completionItemOfJson)
    ∧ GetCompletions true true (.ok ⟨rid, some (.obj [(itemsKey, .arr items)]), none⟩)
        = GetCompletions true true (.ok ⟨rid, some (.arr items), none⟩)
    ∧ (completionItemOfJson bad = none →
        completionsFromResult (some (.arr (pre ++ bad :: post)))
          = completionsFromResult (some (.arr (pre ++ post)))) := by
  refine ⟨rfl, rfl, rfl, ?_⟩
  intro hbad
  show (pre ++ bad :: post).filterMap completionItemOfJson
      = (pre ++ post).filterMap completionItemOfJson
  simp [List.filterMap_append, List.filterMap_cons, hbad]

theorem getCompletions_result_shapes_witness :
    GetCompletions true true (.ok ⟨1, none, none⟩) = .ok []
    ∧ completionsFromResult (some (.arr ([Json.null] ++ Json.bool true :: [])))
        = completionsFromResult (some (.arr ([Json.null] ++ []))) :=
  ⟨(getCompletions_result_shapes 1 [] [Json.null] [] (Json.bool true)).1,
   (getCompletions_result_shapes 1 [] [Json.null] [] (Json.bool true)).2.2.2 rfl⟩

/-- C5: `Shutdown` on a never-initialized client succeeds without writing
any frame; on an initialized client it writes the `shutdown` request,
waits, and on any awaited response - whether or not it carries a
protocol-level error member - writes the `exit` notification. -/
theorem shutdown_behavior (sendOk : Bool) (id : Int) (w : Except Unit RespMsg)
    (r : RespMsg) :
    Shutdown false sendOk id w = (.ok (), [])
    ∧ Shutdown true true id (.ok r)
        = (.ok (), [.request id shutdownMethod none, .notification exitMethod none]) :=
  ⟨rfl, rfl⟩

/-- C7: `OpenDocument` before the initialize handshake has completed
fails with the not-ready error and hands no frame at all to the
transport; in particular no `textDocument/didOpen` notification is
written. -/
theorem openDocument_not_ready (writeOk : Bool) (path content : Bytes) :
    OpenDocument false writeOk path content = (.error .notReady, []) := rfl

/-- C9: the definition result switch returns no location for a nil
result, the decoded location for a single object result, and for an
array result only the decoded first element, whatever follows it. -/
theorem goToDefinition_result_shapes (rid : Int) (fs : List (Bytes × Json))
    (j : Json) (rest : List Json) (loc : Location) :
    GoToDefinition true true (.ok ⟨rid, none, none⟩) = .ok none
    ∧ (locOfJson (.obj fs) = some loc →
        GoToDefinition true true (.ok ⟨rid, some (.obj fs), none⟩) = .ok (some loc))
    ∧ (locOfJson j = some loc →
        GoToDefinition true true (.ok ⟨rid, some (.arr (j :: rest)), none⟩)
          = .ok (some loc)) := by
  refine ⟨rfl, ?_, ?_⟩
  · intro h
    show (match locOfJson (.obj fs) with
          | some l => (.ok (some l) : Except FacadeErr (Option Location))
          | none => .error .decodeFailed) = .ok (some loc)
    rw [h]
  · intro h
    show (match locOfJson j with
          | some l => (.ok (some l) : Except FacadeErr (Option Location))
          | none => .error .decodeFailed) = .ok (some loc)
    rw [h]

theorem goToDefinition_result_shapes_witness :
    GoToDefinition true true (.ok ⟨1, some (.obj []), none⟩)
      = .ok (some ⟨[], ⟨⟨0, 0⟩, ⟨0, 0⟩⟩⟩)
    ∧ GoToDefinition true true (.ok ⟨1, some (.arr [Json.null]), none⟩)
      = .ok (some ⟨[], ⟨⟨0, 0⟩, ⟨0, 0⟩⟩⟩) :=
  ⟨(goToDefinition_result_shapes 1 [] Json.null [] ⟨[], ⟨⟨0, 0⟩, ⟨0, 0⟩⟩⟩).2.1 rfl,
   (goToDefinition_result_shapes 1 [] Json.null [] ⟨[], ⟨⟨0, 0⟩, ⟨0, 0⟩⟩⟩).2.2 rfl⟩

end Tron
